import Mathlib

/-!
# Crazy Eights game engine: a shallow embedding

A shallow embedding of the game-rules engine of a Crazy Eights card game.
The engine lives in `src/App.tsx` (state transitions `initGame`, `handleDraw`,
`playCard`, `handleSuitSelect`, the AI-turn effect, `checkWin`) with the data
model in a types module (`Suit`, `Rank`, `Card`, `GameStatus`, `GameState`).
The helpers `createDeck` and `isPlayable` live in a utils module that is not
part of the sources at hand; they are modelled from the design document and
marked as such.

Stateful React code (`setGameState(prev => ...)`) is modelled as pure
functions `GameState → GameState`; JavaScript `Array.prototype` operations
are translated to their `List` counterparts (`pop` = take `getLast?` and
`dropLast`, `unshift` = `cons`, `splice(0, n)` = `take n` / `drop n`,
`push` / spread-append = `++ [·]`), and `Object.entries` of a record built
by successive keyed increments together with the (specified-stable)
`Array.prototype.sort` is modelled by an insertion-ordered association list
and `List.mergeSort`.
-/

namespace CrazyEights

inductive Suit where
  | HEARTS
  | DIAMONDS
  | CLUBS
  | SPADES
deriving DecidableEq, Repr

inductive Rank where
  | ACE
  | TWO
  | THREE
  | FOUR
  | FIVE
  | SIX
  | SEVEN
  | EIGHT
  | NINE
  | TEN
  | JACK
  | QUEEN
  | KING
deriving DecidableEq, Repr

/-- The enumeration order of `Suit` in the types module
(`HEARTS, DIAMONDS, CLUBS, SPADES`). -/
def SUITS : List Suit := [Suit.HEARTS, Suit.DIAMONDS, Suit.CLUBS, Suit.SPADES]

/-- The enumeration order of `Rank` in the types module (`ACE .. KING`). -/
def RANKS : List Rank :=
  [Rank.ACE, Rank.TWO, Rank.THREE, Rank.FOUR, Rank.FIVE, Rank.SIX, Rank.SEVEN,
   Rank.EIGHT, Rank.NINE, Rank.TEN, Rank.JACK, Rank.QUEEN, Rank.KING]

/-- String value of a `Suit`, as in the TypeScript enum. -/
def suitName : Suit → String
  | Suit.HEARTS => "hearts"
  | Suit.DIAMONDS => "diamonds"
  | Suit.CLUBS => "clubs"
  | Suit.SPADES => "spades"

/-- String value of a `Rank`, as in the TypeScript enum. -/
def rankName : Rank → String
  | Rank.ACE => "A"
  | Rank.TWO => "2"
  | Rank.THREE => "3"
  | Rank.FOUR => "4"
  | Rank.FIVE => "5"
  | Rank.SIX => "6"
  | Rank.SEVEN => "7"
  | Rank.EIGHT => "8"
  | Rank.NINE => "9"
  | Rank.TEN => "10"
  | Rank.JACK => "J"
  | Rank.QUEEN => "Q"
  | Rank.KING => "K"

/-- A playing card.  The source gives each card an opaque unique string id;
ids are modelled as naturals, used only for identity comparison. -/
structure Card where
  id : Nat
  suit : Suit
  rank : Rank
  isFaceUp : Bool
deriving DecidableEq, Repr

inductive Turn where
  | player
  | ai
deriving DecidableEq, Repr

inductive GameStatus where
  | playing
  | paused
  | won
  | lost
  | suit_selection
deriving DecidableEq, Repr

structure GameState where
  deck : List Card
  playerHand : List Card
  aiHand : List Card
  discardPile : List Card
  currentTurn : Turn
  status : GameStatus
  wildSuit : Option Suit
  lastAction : String
  hint : String
deriving DecidableEq, Repr

/-- Modelled from the spec: `isPlayable` lives in the utils module, which is
not among the sources; the design document states that a card is playable iff
(a) its rank is EIGHT (eights are always playable regardless of top card), OR
(b) wildSuit is non-null and card.suit equals wildSuit, OR (c) wildSuit is
null and (card.suit equals topCard.suit OR card.rank equals topCard.rank),
rule (a) dominating. -/
def isPlayable (card : Card) (topCard : Card) (wildSuit : Option Suit) : Bool :=
  if card.rank = Rank.EIGHT then true
  else
    match wildSuit with
    | some w => card.suit == w
    | none => card.suit == topCard.suit || card.rank == topCard.rank

/-- Modelled from the spec: `createDeck` lives in the utils module, which is
not among the sources; the design document states that it produces exactly one
card for each of the 52 (suit, rank) pairs, each with a freshly generated
unique id and face-up = false, before shuffling.  The shuffle itself is an
injected source of randomness; theorems quantify over any permutation of this
base deck. -/
def createDeck : List Card :=
  (SUITS.map (fun s =>
    RANKS.map (fun r =>
      ({ id := (SUITS.indexOf s) * 13 + RANKS.indexOf r
         suit := s, rank := r, isFaceUp := false } : Card)))).flatten

/-- `checkWin` from `App.tsx`: player hand empty gives `won`, else AI hand
empty gives `lost`, else no change (`null`). -/
def checkWin (state : GameState) : Option GameStatus :=
  if state.playerHand.length = 0 then some GameStatus.won
  else if state.aiHand.length = 0 then some GameStatus.lost
  else none

/-- The seed-card loop of `initGame`: `fullDeck.pop()` has been taken into
`firstDiscard`; while its rank is EIGHT it is `unshift`ed back to the bottom
and a new card is popped.  The loop is modelled with explicit fuel (the code's
loop has none); `none` models a pop from an empty deck (a crash in the code)
or fuel running out.  `initGame` supplies fuel `deck.length + 1`, which is
proved sufficient whenever a non-EIGHT card is present. -/
def seedLoop : Nat → Card → List Card → Option (Card × List Card)
  | fuel, firstDiscard, fullDeck =>
    if firstDiscard.rank = Rank.EIGHT then
      match fuel, fullDeck.getLast? with
      | 0, _ => none
      | _, none => none
      | fuel + 1, some c => seedLoop fuel c (firstDiscard :: fullDeck.dropLast)
    else
      some (firstDiscard, fullDeck)

/-- `initGame` from `App.tsx`, with the shuffled deck produced by
`createDeck()` passed in as a parameter (randomness is an injected
collaborator): deal 8 face-up cards to the player and the next 8 face-down to
the AI, then pop seed cards for the discard pile until one is not an EIGHT.
`none` models the crash of `fullDeck.pop()!` on an exhausted deck, which the
sufficiency theorems rule out for genuine 52-card decks. -/
def initGame (shuffled : List Card) : Option GameState :=
  let pHand := (shuffled.take 8).map (fun c => { c with isFaceUp := true })
  let aHand := ((shuffled.drop 8).take 8).map (fun c => { c with isFaceUp := false })
  let rest := shuffled.drop 16
  match rest.getLast? with
  | none => none
  | some fd =>
    match seedLoop (rest.dropLast.length + 1) fd rest.dropLast with
    | none => none
    | some (firstDiscard, finalDeck) =>
      some
        { deck := finalDeck
          playerHand := pHand
          aiHand := aHand
          discardPile := [{ firstDiscard with isFaceUp := true }]
          currentTurn := Turn.player
          status := GameStatus.playing
          wildSuit := none
          lastAction := "Game started! Your turn."
          hint := "Match the suit or rank of the top card." }

/-- `handleDraw` from `App.tsx`: guarded on `status = playing` and the
player's turn; an empty deck skips the turn, otherwise the top of the deck is
popped, turned face-up and appended to the player's hand. -/
def handleDraw (state : GameState) : GameState :=
  if state.status = GameStatus.playing ∧ state.currentTurn = Turn.player then
    if state.deck.length = 0 then
      { state with lastAction := "Deck empty! Turn skipped.", currentTurn := Turn.ai }
    else
      match state.deck.getLast? with
      | none => state
      | some drawnCard =>
        { state with
          deck := state.deck.dropLast
          playerHand := state.playerHand ++ [{ drawnCard with isFaceUp := true }]
          lastAction := "You drew a card."
          currentTurn := Turn.ai }
  else state

/-- `playCard` from `App.tsx`: guarded on `status = playing`, the player's
turn, the card being found in the player's hand by id, and `isPlayable`
against the top of the discard pile.  An EIGHT moves to the discard pile and
opens suit selection without touching turn or wild suit; any other card moves
to the discard pile, clears the wild suit, passes the turn and runs
`checkWin`.  The discard pile is never empty when this runs in the
application; an empty pile (undefined top card) is modelled as a no-op. -/
def playCard (state : GameState) (cardId : Nat) : GameState :=
  if state.status = GameStatus.playing ∧ state.currentTurn = Turn.player then
    match state.discardPile.getLast? with
    | none => state
    | some topCard =>
      match state.playerHand.find? (fun c => c.id == cardId) with
      | none => state
      | some card =>
        if isPlayable card topCard state.wildSuit then
          if card.rank = Rank.EIGHT then
            { state with
              status := GameStatus.suit_selection
              playerHand := state.playerHand.filter (fun c => c.id != cardId)
              discardPile := state.discardPile ++ [{ card with isFaceUp := true }] }
          else
            let newState :=
              { state with
                playerHand := state.playerHand.filter (fun c => c.id != cardId)
                discardPile := state.discardPile ++ [{ card with isFaceUp := true }]
                wildSuit := none
                currentTurn := Turn.ai
                lastAction :=
                  "You played " ++ rankName card.rank ++ " of " ++ suitName card.suit ++ "." }
            match checkWin newState with
            | some w => { newState with status := w }
            | none => newState
        else state
  else state

/-- `handleSuitSelect` from `App.tsx`.  Note: unlike `handleDraw` and
`playCard`, the source has no guard on `status` or `currentTurn`; the
transition is applied unconditionally. -/
def handleSuitSelect (state : GameState) (suit : Suit) : GameState :=
  let newState :=
    { state with
      status := GameStatus.playing
      wildSuit := some suit
      currentTurn := Turn.ai
      lastAction := "You set the suit to " ++ suitName suit ++ "." }
  match checkWin newState with
  | some w => { newState with status := w }
  | none => newState

/-- The record `suitCounts` built in the AI-turn effect by
`newHand.forEach(c => suitCounts[c.suit] = (suitCounts[c.suit] || 0) + 1)`:
an insertion-ordered association list, keys in order of first occurrence
(JavaScript records enumerate string keys in insertion order). -/
def suitCounts (newHand : List Card) : List (Suit × Nat) :=
  newHand.foldl
    (fun entries c =>
      if entries.any (fun e => e.1 == c.suit) then
        entries.map (fun e => if e.1 == c.suit then (e.1, e.2 + 1) else e)
      else
        entries ++ [(c.suit, 1)])
    []

/-- `Object.entries(suitCounts).sort((a, b) => b[1] - a[1])[0]?.[0] || SPADES`
from the AI-turn effect: the entries are sorted by count, descending, with the
stable sort the ECMAScript specification mandates, and the first key is taken,
defaulting to SPADES when there are no entries. -/
def aiBestSuit (newHand : List Card) : Suit :=
  match ((suitCounts newHand).mergeSort (fun a b => decide (b.2 ≤ a.2))).head? with
  | some e => e.1
  | none => Suit.SPADES

/-- The AI-turn effect from `App.tsx`, fired when `status = playing` and it is
the AI's turn (the effect's condition is the guard here): the AI plays its
first playable non-EIGHT, else its first playable card (an EIGHT, choosing
the wild suit by `aiBestSuit` of the remaining hand), else draws; drawing
from an empty deck skips the turn.  As in `playCard`, the discard pile is
never empty when this runs in the application; an empty pile is modelled as a
no-op. -/
def aiTurn (state : GameState) : GameState :=
  if state.status = GameStatus.playing ∧ state.currentTurn = Turn.ai then
    match state.discardPile.getLast? with
    | none => state
    | some top =>
      let playableCards := state.aiHand.filter (fun c => isPlayable c top state.wildSuit)
      match playableCards with
      | [] =>
        if state.deck.length > 0 then
          match state.deck.getLast? with
          | none => state
          | some drawn =>
            { state with
              deck := state.deck.dropLast
              aiHand := state.aiHand ++ [{ drawn with isFaceUp := false }]
              currentTurn := Turn.player
              lastAction := "AI drew a card." }
        else
          { state with currentTurn := Turn.player, lastAction := "AI deck empty! Turn skipped." }
      | c0 :: _ =>
        let cardToPlay :=
          match playableCards.find? (fun c => c.rank != Rank.EIGHT) with
          | some nonEight => nonEight
          | none => c0
        let newHand := state.aiHand.filter (fun c => c.id != cardToPlay.id)
        let wildAndLog : Option Suit × String :=
          if cardToPlay.rank = Rank.EIGHT then
            let bestSuit := aiBestSuit newHand
            (some bestSuit, "AI played an 8 and set suit to " ++ suitName bestSuit ++ ".")
          else
            (none,
             "AI played " ++ rankName cardToPlay.rank ++ " of " ++
               suitName cardToPlay.suit ++ ".")
        let newState :=
          { state with
            aiHand := newHand
            discardPile := state.discardPile ++ [{ cardToPlay with isFaceUp := true }]
            wildSuit := wildAndLog.1
            currentTurn := Turn.player
            lastAction := wildAndLog.2 }
        match checkWin newState with
        | some w => { newState with status := w }
        | none => newState
  else state

/-- The length of the maximal all-EIGHT suffix of a list of cards: the number
of iterations the seed-card loop performs on it. -/
def eightSuffixLen (l : List Card) : Nat :=
  (l.reverse.takeWhile (fun c => c.rank == Rank.EIGHT)).length

/-- The number of cards of suit `s` in the hand `h`. -/
def countSuit (h : List Card) (s : Suit) : Nat := h.countP (fun c => c.suit == s)

/-- The distinct suits of `h`, in order of first occurrence: the enumeration
order of the string keys of the `suitCounts` record. -/
def firstOccSuits (h : List Card) : List Suit :=
  h.foldl (fun acc c => if acc.contains c.suit then acc else acc ++ [c.suit]) []

/-- The first element of `a :: l` attaining the maximal value of `f`: the
running best is replaced only by a strictly greater candidate. -/
def firstMaxBy {α : Type} (f : α → Nat) : α → List α → α
  | a, [] => a
  | a, t :: ts => if f a < f t then firstMaxBy f t ts else firstMaxBy f a ts

/-- The wild-suit choice stated independently of the sorting code: the suit
occurring most frequently in `h`, ties broken in favour of the suit whose
first occurrence in `h` is earliest, SPADES when `h` is empty. -/
def specWildChoice (h : List Card) : Suit :=
  match firstOccSuits h with
  | [] => Suit.SPADES
  | s :: rest => firstMaxBy (countSuit h) s rest

/-- The wild-suit choice claim C2 asserts: the suit occurring most frequently
in `h`, ties broken by the enumeration order of suits
(HEARTS, DIAMONDS, CLUBS, SPADES), SPADES when `h` is empty. -/
def enumWildChoice (h : List Card) : Suit :=
  match h with
  | [] => Suit.SPADES
  | _ => firstMaxBy (countSuit h) Suit.HEARTS [Suit.DIAMONDS, Suit.CLUBS, Suit.SPADES]

/-! ## Concrete states used by witnesses and counterexamples -/

def mkCard (i : Nat) (s : Suit) (r : Rank) : Card :=
  { id := i, suit := s, rank := r, isFaceUp := true }

/-- An empty board used as a base for the concrete test states below. -/
def baseState : GameState :=
  { deck := []
    playerHand := []
    aiHand := []
    discardPile := []
    currentTurn := Turn.player
    status := GameStatus.playing
    wildSuit := none
    lastAction := ""
    hint := "" }

/-- The tie-break scenario of the design document: the AI holds 3-of-clubs,
3-of-diamonds and 8-of-spades against a king-of-spades top card, so only the
EIGHT is playable; after removing it, clubs and diamonds are tied 1-1. -/
def tieState : GameState :=
  { baseState with
    playerHand := [mkCard 100 Suit.HEARTS Rank.TWO]
    aiHand := [mkCard 1 Suit.CLUBS Rank.THREE, mkCard 2 Suit.DIAMONDS Rank.THREE,
               mkCard 3 Suit.SPADES Rank.EIGHT]
    discardPile := [mkCard 4 Suit.SPADES Rank.KING]
    currentTurn := Turn.ai }

/-- The state `initGame` produces from the unshuffled deck (the identity
permutation of the injected shuffle). -/
def gs0 : GameState := (initGame createDeck).getD baseState

/-- A mid-game position with `status = playing`: outside the
awaiting-wild-suit-selection phase, with both hands non-empty. -/
def playingState : GameState :=
  { baseState with
    playerHand := [mkCard 10 Suit.HEARTS Rank.ACE]
    aiHand := [mkCard 11 Suit.SPADES Rank.ACE]
    discardPile := [mkCard 12 Suit.SPADES Rank.KING] }

/-- A suit-selection position in which the AI hand is already empty while the
player still holds a card. -/
def aiEmptySelectionState : GameState :=
  { baseState with
    playerHand := [mkCard 20 Suit.HEARTS Rank.ACE]
    discardPile := [mkCard 21 Suit.SPADES Rank.EIGHT]
    status := GameStatus.suit_selection }

/-- A suit-selection position with both hands non-empty. -/
def selectionState : GameState :=
  { baseState with
    playerHand := [mkCard 30 Suit.HEARTS Rank.ACE]
    aiHand := [mkCard 31 Suit.SPADES Rank.ACE]
    discardPile := [mkCard 32 Suit.SPADES Rank.EIGHT]
    status := GameStatus.suit_selection }

/-- A position where the player holds just a playable EIGHT. -/
def eightHandState : GameState :=
  { baseState with
    playerHand := [mkCard 40 Suit.HEARTS Rank.EIGHT, mkCard 41 Suit.HEARTS Rank.TWO]
    aiHand := [mkCard 42 Suit.SPADES Rank.ACE]
    discardPile := [mkCard 43 Suit.SPADES Rank.KING] }

/-- The rank-match scenario of the design document: player holds the seven of
hearts against the seven of spades. -/
def sevenHandState : GameState :=
  { baseState with
    playerHand := [mkCard 50 Suit.HEARTS Rank.SEVEN]
    aiHand := [mkCard 51 Suit.SPADES Rank.ACE]
    discardPile := [mkCard 52 Suit.SPADES Rank.SEVEN] }

/-- A playing position whose deck is exhausted. -/
def emptyDeckState : GameState :=
  { baseState with
    playerHand := [mkCard 60 Suit.HEARTS Rank.ACE]
    aiHand := [mkCard 61 Suit.SPADES Rank.ACE]
    discardPile := [mkCard 62 Suit.SPADES Rank.KING]
    wildSuit := some Suit.DIAMONDS }

/-- A position where the player hand is empty but the AI hand is not. -/
def playerClearedState : GameState :=
  { baseState with aiHand := [mkCard 70 Suit.SPADES Rank.ACE] }

/-! ## Card conservation -/

/-- The identity-relevant content of a card: its id, suit and rank (everything
but the presentation-only face-up flag, which operations may rewrite on a
moved card). -/
def key (c : Card) : Nat × Suit × Rank := (c.id, c.suit, c.rank)

/-- All cards of a game state, across the four collections cards move
between. -/
def cards (s : GameState) : List Card :=
  s.deck ++ s.playerHand ++ s.aiHand ++ s.discardPile

/-- The 52 (suit, rank) pairs. -/
def allPairs : List (Suit × Rank) :=
  (SUITS.map (fun s => RANKS.map (fun r => (s, r)))).flatten

/-- The card-conservation invariant: across the four collections, the
(suit, rank) pairs are exactly the 52 pairs, each exactly once, and no two
cards share an id. -/
def Inv (s : GameState) : Prop :=
  ((cards s).map (fun c => (c.suit, c.rank))).Perm allPairs ∧
  ((cards s).map Card.id).Nodup

theorem getLast?_decomp {α : Type} {l : List α} {e : α} (h : l.getLast? = some e) :
    l.dropLast ++ [e] = l := by
  have hne : l ≠ [] := by rintro rfl; simp at h
  have he : l.getLast hne = e := by
    have h' := List.getLast?_eq_getLast l hne
    rw [h] at h'
    exact Option.some_injective _ h'.symm
  rw [← he]
  exact List.dropLast_concat_getLast hne

/-- Removing a card from a list whose ids are all distinct by filtering on its
id removes exactly that card. -/
theorem perm_cons_filter_of_nodup_ids {l : List Card} {c : Card}
    (hn : (l.map Card.id).Nodup) (hc : c ∈ l) :
    l.Perm (c :: l.filter (fun b => b.id != c.id)) := by
  induction l with
  | nil => cases hc
  | cons a t ih =>
    simp only [List.map_cons, List.nodup_cons, List.mem_map] at hn
    rcases List.mem_cons.mp hc with rfl | hct
    · have ht : t.filter (fun b => b.id != c.id) = t :=
        List.filter_eq_self.mpr (fun b hb => by
          simp only [bne_iff_ne, ne_eq]
          exact fun h => hn.1 ⟨b, hb, h⟩)
      simp [List.filter_cons, ht]
    · have hne : (a.id != c.id) = true := by
        simp only [bne_iff_ne, ne_eq]
        exact fun h => hn.1 ⟨c, hct, h.symm⟩
      have hf : List.filter (fun b => b.id != c.id) (a :: t) =
          a :: List.filter (fun b => b.id != c.id) t := by
        simp [List.filter_cons, hne]
      rw [hf]
      exact ((ih hn.2 hct).cons a).trans (List.Perm.swap c a _)

/-- A state whose card keys are a permutation of those of a list that carries
one card per (suit, rank) pair with distinct ids satisfies the invariant. -/
theorem inv_of_keys {s' : GameState} {l : List Card}
    (kp : ((cards s').map key).Perm (l.map key))
    (h1 : (l.map (fun c => (c.suit, c.rank))).Perm allPairs)
    (h2 : (l.map Card.id).Nodup) : Inv s' := by
  constructor
  · have hp := kp.map (fun k : Nat × Suit × Rank => (k.2.1, k.2.2))
    simp only [List.map_map] at hp
    have e1 : ((fun k : Nat × Suit × Rank => (k.2.1, k.2.2)) ∘ key) =
        (fun c : Card => (c.suit, c.rank)) := rfl
    rw [e1] at hp
    exact hp.trans h1
  · have hp := kp.map Prod.fst
    simp only [List.map_map] at hp
    have e1 : (Prod.fst ∘ key) = Card.id := rfl
    rw [e1] at hp
    exact hp.nodup_iff.mpr h2

theorem inv_of_keysPerm {s s' : GameState}
    (kp : ((cards s').map key).Perm ((cards s).map key)) (h : Inv s) : Inv s' :=
  inv_of_keys kp h.1 h.2

theorem nodup_playerHand_ids {s : GameState} (h2 : ((cards s).map Card.id).Nodup) :
    (s.playerHand.map Card.id).Nodup := by
  simp only [cards, List.map_append, List.nodup_append] at h2
  exact h2.1.1.2.1

theorem nodup_aiHand_ids {s : GameState} (h2 : ((cards s).map Card.id).Nodup) :
    (s.aiHand.map Card.id).Nodup := by
  simp only [cards, List.map_append, List.nodup_append] at h2
  exact h2.1.2.1

theorem key_faceUp (c : Card) (b : Bool) : key { c with isFaceUp := b } = key c := rfl

/-- Multiset form of `perm_cons_filter_of_nodup_ids`, at the level of keys. -/
theorem keys_split_of_mem {l : List Card} {c : Card}
    (hn : (l.map Card.id).Nodup) (hc : c ∈ l) :
    ((l.map key : List (Nat × Suit × Rank)) : Multiset (Nat × Suit × Rank)) =
      {key c} + ((l.filter (fun b => b.id != c.id)).map key : List (Nat × Suit × Rank)) := by
  have hp := (perm_cons_filter_of_nodup_ids hn hc).map key
  rw [Multiset.singleton_add, Multiset.cons_coe, Multiset.coe_eq_coe]
  simpa using hp

theorem keysPerm_handleSuitSelect (s : GameState) (suit : Suit) :
    ((cards (handleSuitSelect s suit)).map key).Perm ((cards s).map key) := by
  unfold handleSuitSelect
  dsimp only
  split <;> exact List.Perm.refl _

theorem keysPerm_handleDraw (s : GameState) :
    ((cards (handleDraw s)).map key).Perm ((cards s).map key) := by
  unfold handleDraw
  split
  · split
    · exact List.Perm.refl _
    · split
      · exact List.Perm.refl _
      · rename_i hguard hne drawn hlast
        have hd : s.deck.dropLast ++ [drawn] = s.deck := getLast?_decomp hlast
        rw [← Multiset.coe_eq_coe]
        conv_rhs => rw [cards, ← hd]
        simp only [cards, List.map_append, List.map_cons, List.map_nil,
          ← Multiset.coe_add, ← Multiset.cons_coe, ← Multiset.singleton_add,
          Multiset.coe_singleton, List.append_assoc, key]
        abel
  · exact List.Perm.refl _

theorem keysPerm_playCard (s : GameState) (cardId : Nat)
    (hn : ((cards s).map Card.id).Nodup) :
    ((cards (playCard s cardId)).map key).Perm ((cards s).map key) := by
  unfold playCard
  dsimp only
  split
  · split
    · exact List.Perm.refl _
    · rename_i topCard hlast
      split
      · exact List.Perm.refl _
      · rename_i card hfind
        have hmem : card ∈ s.playerHand := List.mem_of_find?_eq_some hfind
        have hid : card.id = cardId := by
          have := List.find?_some hfind
          simpa using this
        subst hid
        have hsplit := keys_split_of_mem (nodup_playerHand_ids hn) hmem
        split
        · split
          · rw [← Multiset.coe_eq_coe]
            simp only [cards, List.map_append, List.map_cons, List.map_nil,
              ← Multiset.coe_add, Multiset.coe_singleton, key_faceUp,
              List.append_assoc, hsplit]
            abel
          · split <;>
            · rw [← Multiset.coe_eq_coe]
              simp only [cards, List.map_append, List.map_cons, List.map_nil,
                ← Multiset.coe_add, Multiset.coe_singleton, key_faceUp,
                List.append_assoc, hsplit]
              abel
        · exact List.Perm.refl _
  · exact List.Perm.refl _

theorem keysPerm_aiTurn (s : GameState)
    (hn : ((cards s).map Card.id).Nodup) :
    ((cards (aiTurn s)).map key).Perm ((cards s).map key) := by
  unfold aiTurn
  dsimp only
  split
  · split
    · exact List.Perm.refl _
    · rename_i top hlast
      split
      · -- no playable card: draw or skip
        split
        · split
          · exact List.Perm.refl _
          · rename_i drawn hdlast
            have hd : s.deck.dropLast ++ [drawn] = s.deck := getLast?_decomp hdlast
            rw [← Multiset.coe_eq_coe]
            conv_rhs => rw [cards, ← hd]
            simp only [cards, List.map_append, List.map_cons, List.map_nil,
              ← Multiset.coe_add, ← Multiset.cons_coe, ← Multiset.singleton_add,
              Multiset.coe_singleton, List.append_assoc, key]
            abel
        · exact List.Perm.refl _
      · rename_i c0 tail heq
        rw [heq]
        have hc0 : c0 ∈ s.aiHand := by
          have : c0 ∈ List.filter (fun c => isPlayable c top s.wildSuit) s.aiHand := by
            rw [heq]; exact List.mem_cons_self _ _
          exact (List.mem_filter.mp this).1
        cases hfind : List.find? (fun c => c.rank != Rank.EIGHT) (c0 :: tail) with
        | some ne =>
          simp only [hfind]
          have hne : ne ∈ s.aiHand := by
            have h1 : ne ∈ c0 :: tail := List.mem_of_find?_eq_some hfind
            have h2 : ne ∈ List.filter (fun c => isPlayable c top s.wildSuit) s.aiHand := by
              rw [heq]; exact h1
            exact (List.mem_filter.mp h2).1
          have hsplit := keys_split_of_mem (nodup_aiHand_ids hn) hne
          split <;>
          · rw [← Multiset.coe_eq_coe]
            simp only [cards, List.map_append, List.map_cons, List.map_nil,
              ← Multiset.coe_add, Multiset.coe_singleton, key_faceUp,
              List.append_assoc, hsplit, key]
            abel
        | none =>
          simp only [hfind]
          have hsplit := keys_split_of_mem (nodup_aiHand_ids hn) hc0
          split <;>
          · rw [← Multiset.coe_eq_coe]
            simp only [cards, List.map_append, List.map_cons, List.map_nil,
              ← Multiset.coe_add, Multiset.coe_singleton, key_faceUp,
              List.append_assoc, hsplit, key]
            abel
  · exact List.Perm.refl _
theorem seedLoop_nonEight {fuel : Nat} {fd : Card} {deck : List Card}
    (hfd : fd.rank ≠ Rank.EIGHT) : seedLoop fuel fd deck = some (fd, deck) := by
  rw [seedLoop.eq_def]
  dsimp only
  rw [if_neg hfd]

theorem seedLoop_succ_eight {n : Nat} {fd last : Card} {deck : List Card}
    (hfd : fd.rank = Rank.EIGHT) (hl : deck.getLast? = some last) :
    seedLoop (n + 1) fd deck = seedLoop n last (fd :: deck.dropLast) := by
  rw [seedLoop.eq_def]
  dsimp only
  rw [if_pos hfd, hl]

theorem seedLoop_zero_eight {fd : Card} {deck : List Card}
    (hfd : fd.rank = Rank.EIGHT) : seedLoop 0 fd deck = none := by
  rw [seedLoop.eq_def]
  dsimp only
  rw [if_pos hfd]
  cases deck.getLast? <;> rfl

theorem seedLoop_eight_nil {fuel : Nat} {fd : Card}
    (hfd : fd.rank = Rank.EIGHT) : seedLoop fuel fd [] = none := by
  rw [seedLoop.eq_def]
  dsimp only
  rw [if_pos hfd]
  cases fuel <;> rfl

theorem seedLoop_perm : ∀ (fuel : Nat) (fd c : Card) (deck d' : List Card),
    seedLoop fuel fd deck = some (c, d') → (c :: d').Perm (fd :: deck) := by
  intro fuel
  induction fuel with
  | zero =>
    intro fd c deck d' h
    by_cases hfd : fd.rank = Rank.EIGHT
    · rw [seedLoop_zero_eight hfd] at h; cases h
    · rw [seedLoop_nonEight hfd] at h
      simp only [Option.some.injEq, Prod.mk.injEq] at h
      obtain ⟨rfl, rfl⟩ := h
      exact List.Perm.refl _
  | succ n ih =>
    intro fd c deck d' h
    by_cases hfd : fd.rank = Rank.EIGHT
    · cases hl : deck.getLast? with
      | none =>
        have : deck = [] := by
          cases deck with
          | nil => rfl
          | cons a t => simp [List.getLast?_eq_getLast] at hl
        subst this
        rw [seedLoop_eight_nil hfd] at h; cases h
      | some last =>
        rw [seedLoop_succ_eight hfd hl] at h
        have hp := ih last c (fd :: deck.dropLast) d' h
        refine hp.trans ?_
        have hd : deck.dropLast ++ [last] = deck := getLast?_decomp hl
        rw [← Multiset.coe_eq_coe]
        conv_rhs => rw [← hd]
        simp only [← Multiset.cons_coe, ← Multiset.coe_add, ← Multiset.singleton_add,
          Multiset.coe_singleton, List.append_assoc]
        abel
    · rw [seedLoop_nonEight hfd] at h
      simp only [Option.some.injEq, Prod.mk.injEq] at h
      obtain ⟨rfl, rfl⟩ := h
      exact List.Perm.refl _

theorem all_of_takeWhile_length {α : Type} {p : α → Bool} :
    ∀ {xs : List α}, (xs.takeWhile p).length = xs.length → ∀ x ∈ xs, p x := by
  intro xs
  induction xs with
  | nil => intro _ x hx; cases hx
  | cons a t ih =>
    intro h x hx
    by_cases hp : p a
    · rw [List.takeWhile_cons_of_pos hp] at h
      simp only [List.length_cons, Nat.add_right_cancel_iff] at h
      rcases List.mem_cons.mp hx with rfl | hxt
      · exact hp
      · exact ih h x hxt
    · rw [List.takeWhile_cons_of_neg hp] at h
      simp at h

theorem eightSuffixLen_le (l : List Card) : eightSuffixLen l ≤ l.length := by
  have h := (List.takeWhile_sublist (p := fun c => c.rank == Rank.EIGHT) (l := l.reverse)).length_le
  simpa [eightSuffixLen] using h

theorem eightSuffixLen_append_eight {l : List Card} {e : Card} (he : e.rank = Rank.EIGHT) :
    eightSuffixLen (l ++ [e]) = eightSuffixLen l + 1 := by
  unfold eightSuffixLen
  rw [List.reverse_append]
  simp [List.takeWhile_cons_of_pos, he]

theorem eightSuffixLen_cons_of_exists {x : Card} {l : List Card}
    (h : ∃ y ∈ l, y.rank ≠ Rank.EIGHT) : eightSuffixLen (x :: l) = eightSuffixLen l := by
  unfold eightSuffixLen
  rw [List.reverse_cons, List.takeWhile_append]
  split
  · rename_i hlen
    obtain ⟨y, hy, hyne⟩ := h
    have hall := all_of_takeWhile_length hlen y (by simpa using hy)
    simp at hall
    exact absurd hall hyne
  · rfl

theorem seedLoop_success : ∀ (fuel : Nat) (fd : Card) (deck : List Card),
    (fd.rank ≠ Rank.EIGHT ∨
      ((∃ x ∈ deck, x.rank ≠ Rank.EIGHT) ∧ eightSuffixLen deck < fuel)) →
    ∃ c d', seedLoop fuel fd deck = some (c, d') ∧ c.rank ≠ Rank.EIGHT := by
  intro fuel
  induction fuel with
  | zero =>
    intro fd deck h
    rcases h with hfd | ⟨_, hlt⟩
    · exact ⟨fd, deck, seedLoop_nonEight hfd, hfd⟩
    · omega
  | succ n ih =>
    intro fd deck h
    by_cases hfd : fd.rank = Rank.EIGHT
    · rcases h with hfd' | ⟨⟨x, hx, hxne⟩, hlt⟩
      · exact absurd hfd hfd'
      · have hne : deck ≠ [] := by rintro rfl; cases hx
        have hl : deck.getLast? = some (deck.getLast hne) := List.getLast?_eq_getLast deck hne
        have hd : deck.dropLast ++ [deck.getLast hne] = deck := getLast?_decomp hl
        rw [seedLoop_succ_eight hfd hl]
        by_cases hlast : (deck.getLast hne).rank = Rank.EIGHT
        · have hxdl : x ∈ deck.dropLast := by
            have hx' : x ∈ deck.dropLast ++ [deck.getLast hne] := by rw [hd]; exact hx
            rcases List.mem_append.mp hx' with h1 | h1
            · exact h1
            · exfalso
              simp only [List.mem_singleton] at h1
              rw [h1] at hxne
              exact hxne hlast
          apply ih
          right
          constructor
          · exact ⟨x, List.mem_cons_of_mem fd hxdl, hxne⟩
          · have h1 : eightSuffixLen (fd :: deck.dropLast) = eightSuffixLen deck.dropLast :=
              eightSuffixLen_cons_of_exists ⟨x, hxdl, hxne⟩
            have h2 : eightSuffixLen deck = eightSuffixLen deck.dropLast + 1 := by
              conv_lhs => rw [← hd]
              exact eightSuffixLen_append_eight hlast
            omega
        · exact ih _ _ (Or.inl hlast)
    · exact ⟨fd, deck, seedLoop_nonEight hfd, hfd⟩

theorem createDeck_length : createDeck.length = 52 := by decide

theorem createDeck_pairs : createDeck.map (fun c => (c.suit, c.rank)) = allPairs := by decide

theorem createDeck_ids_nodup : (createDeck.map Card.id).Nodup := by decide

theorem countP_eight_createDeck :
    createDeck.countP (fun c => c.rank == Rank.EIGHT) = 4 := by decide

theorem map_key_faceUp (l : List Card) (b : Bool) :
    (l.map (fun c => { c with isFaceUp := b })).map key = l.map key := by
  rw [List.map_map]
  rfl

/-- Any permutation of the full deck keeps a non-EIGHT card among the 36 cards
left after dealing the two hands. -/
theorem exists_nonEight_rest {shuffled : List Card} (h : shuffled.Perm createDeck) :
    ∃ x ∈ shuffled.drop 16, x.rank ≠ Rank.EIGHT := by
  have hlen : shuffled.length = 52 := by rw [h.length_eq, createDeck_length]
  have hrl : (shuffled.drop 16).length = 36 := by simp [hlen]
  have hc : (shuffled.drop 16).countP (fun c => c.rank == Rank.EIGHT) ≤ 4 := by
    have hsplit : shuffled.countP (fun c => c.rank == Rank.EIGHT) =
        (shuffled.take 16).countP (fun c => c.rank == Rank.EIGHT) +
          (shuffled.drop 16).countP (fun c => c.rank == Rank.EIGHT) := by
      conv_lhs => rw [← List.take_append_drop 16 shuffled]
      exact List.countP_append _ _ _
    have htot : shuffled.countP (fun c => c.rank == Rank.EIGHT) = 4 := by
      rw [h.countP_eq, countP_eight_createDeck]
    omega
  by_contra hno
  push_neg at hno
  have hall : (shuffled.drop 16).countP (fun c => c.rank == Rank.EIGHT) =
      (shuffled.drop 16).length :=
    List.countP_eq_length.mpr (fun a ha => by simp [hno a ha])
  omega

theorem initGame_spec {shuffled : List Card} (h : shuffled.Perm createDeck) :
    ∃ gs, initGame shuffled = some gs ∧
      ∃ t, gs.discardPile.getLast? = some t ∧ t.rank ≠ Rank.EIGHT := by
  have hlen : shuffled.length = 52 := by rw [h.length_eq, createDeck_length]
  have hne : shuffled.drop 16 ≠ [] := by
    intro hnil
    have := congrArg List.length hnil
    simp [hlen] at this
  have hl : (shuffled.drop 16).getLast? =
      some ((shuffled.drop 16).getLast hne) := List.getLast?_eq_getLast _ hne
  have hd : (shuffled.drop 16).dropLast ++ [(shuffled.drop 16).getLast hne] =
      shuffled.drop 16 := getLast?_decomp hl
  obtain ⟨x, hx, hxne⟩ := exists_nonEight_rest h
  have hdisj : ((shuffled.drop 16).getLast hne).rank ≠ Rank.EIGHT ∨
      ((∃ y ∈ (shuffled.drop 16).dropLast, y.rank ≠ Rank.EIGHT) ∧
        eightSuffixLen (shuffled.drop 16).dropLast < (shuffled.drop 16).dropLast.length + 1) := by
    by_cases hfd : ((shuffled.drop 16).getLast hne).rank = Rank.EIGHT
    · right
      refine ⟨?_, Nat.lt_succ_of_le (eightSuffixLen_le _)⟩
      have hx' : x ∈ (shuffled.drop 16).dropLast ++ [(shuffled.drop 16).getLast hne] := by
        rw [hd]; exact hx
      rcases List.mem_append.mp hx' with h1 | h1
      · exact ⟨x, h1, hxne⟩
      · exfalso
        simp only [List.mem_singleton] at h1
        rw [h1] at hxne
        exact hxne hfd
    · exact Or.inl hfd
  obtain ⟨c, d', hseed, hcne⟩ := seedLoop_success _ _ _ hdisj
  refine ⟨{ deck := d'
            playerHand := (shuffled.take 8).map (fun b => { b with isFaceUp := true })
            aiHand := ((shuffled.drop 8).take 8).map (fun b => { b with isFaceUp := false })
            discardPile := [{ c with isFaceUp := true }]
            currentTurn := Turn.player
            status := GameStatus.playing
            wildSuit := none
            lastAction := "Game started! Your turn."
            hint := "Match the suit or rank of the top card." }, ?_, ?_⟩
  · unfold initGame
    dsimp only
    rw [hl]
    dsimp only
    rw [hseed]
  · exact ⟨{ c with isFaceUp := true }, rfl, hcne⟩

theorem initGame_inv {shuffled : List Card} {gs : GameState} (h : shuffled.Perm createDeck)
    (hinit : initGame shuffled = some gs) : Inv gs := by
  unfold initGame at hinit
  dsimp only at hinit
  cases hl : (shuffled.drop 16).getLast? with
  | none => rw [hl] at hinit; cases hinit
  | some fd =>
    rw [hl] at hinit
    dsimp only at hinit
    cases hs : seedLoop ((shuffled.drop 16).dropLast.length + 1) fd
        (shuffled.drop 16).dropLast with
    | none => rw [hs] at hinit; cases hinit
    | some pair =>
      obtain ⟨c, d'⟩ := pair
      rw [hs] at hinit
      simp only [Option.some.injEq] at hinit
      subst hinit
      have sp := seedLoop_perm _ _ _ _ _ hs
      have hd : (shuffled.drop 16).dropLast ++ [fd] = shuffled.drop 16 := getLast?_decomp hl
      refine inv_of_keys ?_
        (createDeck_pairs ▸ List.Perm.refl _) createDeck_ids_nodup
      have htr : (shuffled.map key).Perm (createDeck.map key) := h.map key
      refine List.Perm.trans ?_ htr
      rw [← Multiset.coe_eq_coe]
      have hsp : ({key c} +
            ((d'.map key : List (Nat × Suit × Rank)) : Multiset (Nat × Suit × Rank))) =
          {key fd} + (((shuffled.drop 16).dropLast.map key : List (Nat × Suit × Rank)) :
            Multiset (Nat × Suit × Rank)) := by
        rw [Multiset.singleton_add, Multiset.singleton_add, Multiset.cons_coe,
          Multiset.cons_coe, Multiset.coe_eq_coe]
        simpa using sp.map key
      conv_rhs => rw [← List.take_append_drop 8 shuffled,
        ← List.take_append_drop 8 (shuffled.drop 8)]
      have e3 : (shuffled.drop 8).drop 8 = shuffled.drop 16 := by
        rw [List.drop_drop]
      rw [e3, ← hd]
      have rearrange : ∀ (A B C D kc kf : Multiset (Nat × Suit × Rank)),
          kc + A = kf + D → A + (B + (C + (kc + 0))) = B + (C + (D + (kf + 0))) := by
        intro A B C D kc kf hh
        calc A + (B + (C + (kc + 0))) = (kc + A) + (B + C) := by abel
          _ = (kf + D) + (B + C) := by rw [hh]
          _ = B + (C + (D + (kf + 0))) := by abel
      simp only [cards, List.map_append, List.map_cons, List.map_nil,
        ← Multiset.coe_add, ← Multiset.cons_coe, ← Multiset.singleton_add,
        Multiset.coe_singleton, Multiset.coe_nil, List.append_assoc,
        map_key_faceUp, key_faceUp]
      exact rearrange _ _ _ _ _ _ hsp

theorem firstMaxBy_mem {α : Type} (f : α → Nat) :
    ∀ (l : List α) (a : α), firstMaxBy f a l ∈ a :: l := by
  intro l
  induction l with
  | nil => intro a; simp [firstMaxBy]
  | cons t ts ih =>
    intro a
    unfold firstMaxBy
    by_cases hc : f a < f t
    · rw [if_pos hc]
      rcases List.mem_cons.mp (ih t) with h1 | h1
      · rw [h1]; exact List.mem_cons_of_mem a (List.mem_cons_self t ts)
      · exact List.mem_cons_of_mem a (List.mem_cons_of_mem t h1)
    · rw [if_neg hc]
      rcases List.mem_cons.mp (ih a) with h1 | h1
      · rw [h1]; exact List.mem_cons_self a (t :: ts)
      · exact List.mem_cons_of_mem a (List.mem_cons_of_mem t h1)

theorem firstMaxBy_le {α : Type} (f : α → Nat) :
    ∀ (l : List α) (a : α), ∀ x ∈ a :: l, f x ≤ f (firstMaxBy f a l) := by
  intro l
  induction l with
  | nil =>
    intro a x hx
    simp only [List.mem_singleton] at hx
    simp [firstMaxBy, hx]
  | cons t ts ih =>
    intro a x hx
    unfold firstMaxBy
    by_cases hc : f a < f t
    · rw [if_pos hc]
      rcases List.mem_cons.mp hx with rfl | hx1
      · have := ih t t (List.mem_cons_self t ts)
        omega
      · rcases List.mem_cons.mp hx1 with rfl | hx2
        · exact ih _ _ (List.mem_cons_self _ _)
        · exact ih t x (List.mem_cons_of_mem t hx2)
    · rw [if_neg hc]
      rcases List.mem_cons.mp hx with rfl | hx1
      · exact ih _ _ (List.mem_cons_self _ _)
      · rcases List.mem_cons.mp hx1 with rfl | hx2
        · have := ih a a (List.mem_cons_self a ts)
          omega
        · exact ih a x (List.mem_cons_of_mem a hx2)

theorem firstMaxBy_first {α : Type} (f : α → Nat) :
    ∀ (l : List α) (a : α), ∃ l₁ l₂, a :: l = l₁ ++ firstMaxBy f a l :: l₂ ∧
      ∀ x ∈ l₁, f x < f (firstMaxBy f a l) := by
  intro l
  induction l with
  | nil =>
    intro a
    exact ⟨[], [], by simp [firstMaxBy], by simp⟩
  | cons t ts ih =>
    intro a
    unfold firstMaxBy
    by_cases hc : f a < f t
    · rw [if_pos hc]
      obtain ⟨l₁, l₂, hdec, hl₁⟩ := ih t
      refine ⟨a :: l₁, l₂, ?_, ?_⟩
      · rw [List.cons_append, ← hdec]
      · intro x hx
        rcases List.mem_cons.mp hx with rfl | hx1
        · have := firstMaxBy_le f ts t t (List.mem_cons_self t ts)
          omega
        · exact hl₁ x hx1
    · rw [if_neg hc]
      obtain ⟨l₁, l₂, hdec, hl₁⟩ := ih a
      cases l₁ with
      | nil =>
        simp only [List.nil_append, List.cons.injEq] at hdec
        obtain ⟨ha, hts⟩ := hdec
        refine ⟨[], t :: ts, ?_, by simp⟩
        rw [List.nil_append, ← ha]
      | cons y l₁' =>
        simp only [List.cons_append, List.cons.injEq] at hdec
        obtain ⟨hy, hts⟩ := hdec
        subst hy
        refine ⟨a :: t :: l₁', l₂, ?_, ?_⟩
        · rw [List.cons_append, List.cons_append, ← hts]
        · intro x hx
          rcases List.mem_cons.mp hx with rfl | hx1
          · exact hl₁ _ (List.mem_cons_self _ _)
          · rcases List.mem_cons.mp hx1 with rfl | hx2
            · have hyy := hl₁ _ (List.mem_cons_self _ _)
              omega
            · exact hl₁ x (List.mem_cons_of_mem _ hx2)


theorem mem_firstOccSuits_aux (h : List Card) :
    ∀ (acc : List Suit) (s : Suit),
      (s ∈ h.foldl
          (fun acc c => if acc.contains c.suit then acc else acc ++ [c.suit]) acc ↔
        s ∈ acc ∨ ∃ c ∈ h, c.suit = s) := by
  induction h with
  | nil => intro acc s; simp
  | cons c t ih =>
    intro acc s
    rw [List.foldl_cons, ih]
    have hstep : (s ∈ if acc.contains c.suit then acc else acc ++ [c.suit]) ↔
        s ∈ acc ∨ s = c.suit := by
      split
      · rename_i hc
        have hmem : c.suit ∈ acc := by simpa using hc
        constructor
        · exact Or.inl
        · rintro (hs | rfl)
          · exact hs
          · exact hmem
      · simp [eq_comm]
    rw [hstep]
    constructor
    · rintro ((hs | rfl) | ⟨b, hb, rfl⟩)
      · exact Or.inl hs
      · exact Or.inr ⟨c, List.mem_cons_self c t, rfl⟩
      · exact Or.inr ⟨b, List.mem_cons_of_mem c hb, rfl⟩
    · rintro (hs | ⟨b, hb, rfl⟩)
      · exact Or.inl (Or.inl hs)
      · rcases List.mem_cons.mp hb with rfl | hbt
        · exact Or.inl (Or.inr rfl)
        · exact Or.inr ⟨b, hbt, rfl⟩

theorem mem_firstOccSuits {h : List Card} {s : Suit} :
    s ∈ firstOccSuits h ↔ ∃ c ∈ h, c.suit = s := by
  unfold firstOccSuits
  rw [mem_firstOccSuits_aux]
  simp

theorem nodup_firstOccSuits_aux (h : List Card) :
    ∀ (acc : List Suit), acc.Nodup →
      (h.foldl (fun acc c => if acc.contains c.suit then acc else acc ++ [c.suit]) acc).Nodup := by
  induction h with
  | nil => intro acc ha; simpa using ha
  | cons c t ih =>
    intro acc ha
    rw [List.foldl_cons]
    apply ih
    split
    · exact ha
    · rename_i hc
      have hnm : c.suit ∉ acc := by simpa using hc
      simp [List.nodup_append, ha, hnm]

theorem nodup_firstOccSuits (h : List Card) : (firstOccSuits h).Nodup :=
  nodup_firstOccSuits_aux h [] List.nodup_nil

theorem countSuit_append_single (p : List Card) (c : Card) (s : Suit) :
    countSuit (p ++ [c]) s = countSuit p s + (if c.suit = s then 1 else 0) := by
  unfold countSuit
  rw [List.countP_append]
  simp [List.countP_cons]

theorem suitCounts_step (p : List Card) (c : Card) :
    (if ((firstOccSuits p).map (fun s => (s, countSuit p s))).any
          (fun e => e.1 == c.suit) then
        ((firstOccSuits p).map (fun s => (s, countSuit p s))).map
          (fun e => if e.1 == c.suit then (e.1, e.2 + 1) else e)
      else
        ((firstOccSuits p).map (fun s => (s, countSuit p s))) ++ [(c.suit, 1)]) =
      (firstOccSuits (p ++ [c])).map (fun s => (s, countSuit (p ++ [c]) s)) := by
  have hfo : firstOccSuits (p ++ [c]) =
      (if (firstOccSuits p).contains c.suit then firstOccSuits p
        else firstOccSuits p ++ [c.suit]) := by
    unfold firstOccSuits
    rw [List.foldl_append]
    rfl
  rw [hfo]
  by_cases hmem : c.suit ∈ firstOccSuits p
  · have hcon : (firstOccSuits p).contains c.suit = true := by simpa using hmem
    have hany : ((firstOccSuits p).map (fun s => (s, countSuit p s))).any
        (fun e => e.1 == c.suit) = true := by
      simp only [List.any_eq_true, List.mem_map]
      exact ⟨(c.suit, countSuit p c.suit), ⟨c.suit, hmem, rfl⟩, by simp⟩
    rw [if_pos hany, if_pos hcon]
    rw [List.map_map]
    apply List.map_congr_left
    intro s hs
    simp only [Function.comp_apply]
    by_cases hsc : s = c.suit
    · subst hsc
      simp [countSuit_append_single]
    · have : (s == c.suit) = false := by simpa using hsc
      simp [this, countSuit_append_single, hsc, Ne.symm hsc]
  · have hcon : ¬((firstOccSuits p).contains c.suit = true) := by simpa using hmem
    have hany : ¬(((firstOccSuits p).map (fun s => (s, countSuit p s))).any
        (fun e => e.1 == c.suit) = true) := by
      simp only [List.any_eq_true, List.mem_map]
      rintro ⟨x, ⟨y, hy, rfl⟩, hbeq⟩
      simp only [beq_iff_eq] at hbeq
      exact hmem (hbeq ▸ hy)
    rw [if_neg hany, if_neg hcon]
    rw [List.map_append]
    congr 1
    · apply List.map_congr_left
      intro s hs
      have hsc : s ≠ c.suit := fun hh => hmem (hh ▸ hs)
      simp [countSuit_append_single, Ne.symm hsc]
    · have hzero : countSuit p c.suit = 0 := by
        unfold countSuit
        rw [List.countP_eq_zero]
        intro a ha
        simp only [beq_iff_eq]
        intro hsuit
        exact hmem (mem_firstOccSuits.mpr ⟨a, ha, hsuit⟩)
      simp [countSuit_append_single, hzero]

theorem suitCounts_eq_aux : ∀ (h p : List Card),
    h.foldl
        (fun entries c =>
          if entries.any (fun e => e.1 == c.suit) then
            entries.map (fun e => if e.1 == c.suit then (e.1, e.2 + 1) else e)
          else entries ++ [(c.suit, 1)])
        ((firstOccSuits p).map (fun s => (s, countSuit p s))) =
      (firstOccSuits (p ++ h)).map (fun s => (s, countSuit (p ++ h) s)) := by
  intro h
  induction h with
  | nil => intro p; simp
  | cons c t ih =>
    intro p
    rw [List.foldl_cons, suitCounts_step, ih]
    simp only [List.append_assoc, List.singleton_append]

theorem suitCounts_eq (h : List Card) :
    suitCounts h = (firstOccSuits h).map (fun s => (s, countSuit h s)) := by
  have hh := suitCounts_eq_aux h []
  simpa [suitCounts, firstOccSuits] using hh


theorem descBy_snd_trans (x y z : Suit × Nat) :
    (fun a b : Suit × Nat => decide (b.2 ≤ a.2)) x y →
    (fun a b : Suit × Nat => decide (b.2 ≤ a.2)) y z →
    (fun a b : Suit × Nat => decide (b.2 ≤ a.2)) x z := by
  simp only [decide_eq_true_eq]
  omega

theorem descBy_snd_total (x y : Suit × Nat) :
    ((fun a b : Suit × Nat => decide (b.2 ≤ a.2)) x y ||
      (fun a b : Suit × Nat => decide (b.2 ≤ a.2)) y x) := by
  simp only [Bool.or_eq_true, decide_eq_true_eq]
  omega

/-- The head of the stable descending-by-count sort of a duplicate-free list
of entries is its first entry of maximal count. -/
theorem head_mergeSort_desc {a : Suit × Nat} {l : List (Suit × Nat)}
    (hnd : (a :: l).Nodup) :
    ((a :: l).mergeSort (fun x y => decide (y.2 ≤ x.2))).head? =
      some (firstMaxBy Prod.snd a l) := by
  have hperm := List.mergeSort_perm (a :: l) (fun x y => decide (y.2 ≤ x.2))
  have hsorted := List.sorted_mergeSort descBy_snd_trans descBy_snd_total (a :: l)
  cases hms : (a :: l).mergeSort (fun x y => decide (y.2 ≤ x.2)) with
  | nil =>
    exfalso
    have := hperm.length_eq
    rw [hms] at this
    simp at this
  | cons hd tl =>
    rw [hms] at hperm hsorted
    have hhd_mem : hd ∈ a :: l := hperm.subset (List.mem_cons_self hd tl)
    have hm_mem : firstMaxBy Prod.snd a l ∈ a :: l := firstMaxBy_mem Prod.snd l a
    have hm_max : ∀ x ∈ a :: l, x.2 ≤ (firstMaxBy Prod.snd a l).2 :=
      firstMaxBy_le Prod.snd l a
    by_cases hEq : hd = firstMaxBy Prod.snd a l
    · rw [hEq]
      rfl
    · exfalso
      have hm_in : firstMaxBy Prod.snd a l ∈ hd :: tl := hperm.mem_iff.mpr hm_mem
      have hm_tl : firstMaxBy Prod.snd a l ∈ tl := by
        rcases List.mem_cons.mp hm_in with h1 | h1
        · exact absurd h1.symm hEq
        · exact h1
      have hle : ((fun x y : Suit × Nat => decide (y.2 ≤ x.2)) hd
          (firstMaxBy Prod.snd a l)) := List.rel_of_pairwise_cons hsorted hm_tl
      simp only [decide_eq_true_eq] at hle
      have heq2 : hd.2 = (firstMaxBy Prod.snd a l).2 :=
        Nat.le_antisymm (hm_max hd hhd_mem) hle
      obtain ⟨l₁, l₂, hdec, hl₁⟩ := firstMaxBy_first Prod.snd l a
      have hhd_l₂ : hd ∈ l₂ := by
        have : hd ∈ l₁ ++ firstMaxBy Prod.snd a l :: l₂ := hdec ▸ hhd_mem
        rcases List.mem_append.mp this with h1 | h1
        · exact absurd heq2 (Nat.ne_of_lt (hl₁ hd h1))
        · rcases List.mem_cons.mp h1 with h2 | h2
          · exact absurd h2 hEq
          · exact h2
      have hsub : List.Sublist [firstMaxBy Prod.snd a l, hd] (a :: l) := by
        rw [hdec]
        refine List.Sublist.trans ?_ (List.sublist_append_right l₁ _)
        exact (List.singleton_sublist.mpr hhd_l₂).cons₂ _
      have hps := List.pair_sublist_mergeSort descBy_snd_trans descBy_snd_total
        (by simp [heq2]) hsub
      rw [hms] at hps
      have hnodup_ms : (hd :: tl).Nodup := hperm.nodup_iff.mpr hnd
      have hhd_tl : hd ∉ tl := (List.nodup_cons.mp hnodup_ms).1
      cases hps with
      | cons _ h1 =>
        exact hhd_tl (h1.subset (List.mem_cons_of_mem _ (List.mem_cons_self _ _)))
      | cons₂ _ h1 =>
        exact hhd_tl (h1.subset (List.mem_cons_self _ _))

theorem firstMaxBy_map_pair (cnt : Suit → Nat) :
    ∀ (l : List Suit) (a : Suit),
      firstMaxBy Prod.snd (a, cnt a) (l.map (fun s => (s, cnt s))) =
        (firstMaxBy cnt a l, cnt (firstMaxBy cnt a l)) := by
  intro l
  induction l with
  | nil => intro a; simp [firstMaxBy]
  | cons t ts ih =>
    intro a
    simp only [List.map_cons]
    unfold firstMaxBy
    by_cases hc : cnt a < cnt t
    · rw [if_pos (by simpa using hc), if_pos hc]
      exact ih t
    · rw [if_neg (by simpa using hc), if_neg hc]
      exact ih a

/-- The sorting code of the AI-turn effect computes exactly the
most-frequent-suit choice with first-occurrence tie-break. -/
theorem aiBestSuit_eq_specWildChoice (h : List Card) :
    aiBestSuit h = specWildChoice h := by
  unfold aiBestSuit specWildChoice
  rw [suitCounts_eq]
  cases hfo : firstOccSuits h with
  | nil => simp
  | cons s rest =>
    have hnd : ((s :: rest).map (fun u => (u, countSuit h u))).Nodup := by
      refine List.Nodup.map ?_ (hfo ▸ nodup_firstOccSuits h)
      intro x y hxy
      exact congrArg Prod.fst hxy
    rw [List.map_cons] at hnd ⊢
    rw [head_mergeSort_desc hnd, firstMaxBy_map_pair]

/-! ## Claim theorems -/

/-- C1: for every card `c`, top card `t` and wild suit `w` (possibly null),
`isPlayable c t w` is true iff `c.rank = EIGHT`, or `w` is non-null and
`c.suit = w`, or `w` is null and (`c.suit = t.suit` or `c.rank = t.rank`);
in particular every card of rank EIGHT is playable regardless of `t` and
`w`. -/
theorem C1_isPlayable_iff :
    (∀ (c t : Card) (w : Option Suit),
      isPlayable c t w = true ↔
        (c.rank = Rank.EIGHT ∨ (∃ ws, w = some ws ∧ c.suit = ws) ∨
          (w = none ∧ (c.suit = t.suit ∨ c.rank = t.rank)))) ∧
    (∀ (c t : Card) (w : Option Suit), c.rank = Rank.EIGHT →
      isPlayable c t w = true) := by
  constructor
  · intro c t w
    unfold isPlayable
    by_cases h8 : c.rank = Rank.EIGHT
    · simp [h8]
    · rw [if_neg h8]
      cases w with
      | some ws => simp [h8]
      | none => simp [h8]
  · intro c t w h8
    simp [isPlayable, h8]

/-- Witness for C1 at concrete cards: an EIGHT of hearts is playable against
a king of spades under a spades wild suit, and a seven of hearts matches the
rank of a seven of spades with no wild suit. -/
theorem C1_witness :
    isPlayable (mkCard 1 Suit.HEARTS Rank.EIGHT) (mkCard 2 Suit.SPADES Rank.KING)
        (some Suit.SPADES) = true ∧
      isPlayable (mkCard 3 Suit.HEARTS Rank.SEVEN) (mkCard 4 Suit.SPADES Rank.SEVEN)
        none = true :=
  ⟨C1_isPlayable_iff.2 _ _ _ rfl,
   (C1_isPlayable_iff.1 _ _ _).mpr (Or.inr (Or.inr ⟨rfl, Or.inr rfl⟩))⟩

/-- The wild suit set by an AI turn that plays an EIGHT, characterised
through `specWildChoice`. -/
theorem aiTurn_plays_eight_wildSuit (s : GameState) (top c0 : Card) (cs : List Card)
    (h1 : s.status = GameStatus.playing) (h2 : s.currentTurn = Turn.ai)
    (h3 : s.discardPile.getLast? = some top)
    (h4 : s.aiHand.filter (fun c => isPlayable c top s.wildSuit) = c0 :: cs)
    (h5 : ∀ c ∈ c0 :: cs, c.rank = Rank.EIGHT) :
    (aiTurn s).wildSuit =
      some (specWildChoice (s.aiHand.filter (fun c => c.id != c0.id))) := by
  unfold aiTurn
  rw [if_pos ⟨h1, h2⟩, h3]
  dsimp only
  rw [h4]
  dsimp only
  have hfind : (c0 :: cs).find? (fun c => c.rank != Rank.EIGHT) = none :=
    List.find?_eq_none.mpr (fun x hx => by simp [h5 x hx])
  rw [hfind]
  dsimp only
  rw [if_pos (h5 c0 (List.mem_cons_self c0 cs))]
  split <;> simp [aiBestSuit_eq_specWildChoice]

/-- C2 counterexample: in the documented tie scenario (AI hand 3♣, 3♦, 8♠
against a K♠ top card) the code sets the wild suit to CLUBS — the suit whose
first occurrence in the remaining hand is earliest — while the claimed
enumeration-order tie-break picks DIAMONDS. -/
theorem C2_counterexample :
    (aiTurn tieState).wildSuit = some Suit.CLUBS ∧
    enumWildChoice (tieState.aiHand.filter (fun c => c.id != 3)) = Suit.DIAMONDS ∧
    Suit.CLUBS ≠ Suit.DIAMONDS := by
  refine ⟨?_, by decide, by decide⟩
  have h := aiTurn_plays_eight_wildSuit tieState (mkCard 4 Suit.SPADES Rank.KING)
    (mkCard 3 Suit.SPADES Rank.EIGHT) [] rfl rfl (by decide) (by decide) (by decide)
  rw [h]
  decide

/-- C2 (amended): whenever the AI turn plays a card of rank EIGHT, the wild
suit that is set is the suit occurring most frequently in the AI's hand after
the played card is removed, with ties between equally frequent suits broken in
favour of the suit whose first occurrence in the remaining hand is earliest
(and SPADES when the remaining hand is empty) — the insertion order of the
`suitCounts` record keys under the stable sort, not the enumeration order of
suits. -/
theorem C2_amended_aiWildSuit (s : GameState) (top c0 : Card) (cs : List Card)
    (h1 : s.status = GameStatus.playing) (h2 : s.currentTurn = Turn.ai)
    (h3 : s.discardPile.getLast? = some top)
    (h4 : s.aiHand.filter (fun c => isPlayable c top s.wildSuit) = c0 :: cs)
    (h5 : ∀ c ∈ c0 :: cs, c.rank = Rank.EIGHT) :
    (aiTurn s).wildSuit =
      some (specWildChoice (s.aiHand.filter (fun c => c.id != c0.id))) :=
  aiTurn_plays_eight_wildSuit s top c0 cs h1 h2 h3 h4 h5

/-- Witness for the amended C2 at the documented tie scenario. -/
theorem C2_amended_witness :
    (aiTurn tieState).wildSuit =
      some (specWildChoice (tieState.aiHand.filter (fun c => c.id !=
        (mkCard 3 Suit.SPADES Rank.EIGHT).id))) :=
  C2_amended_aiWildSuit tieState (mkCard 4 Suit.SPADES Rank.KING)
    (mkCard 3 Suit.SPADES Rank.EIGHT) [] rfl rfl (by decide) (by decide) (by decide)

/-- C3: contrary to the claim, `handleSuitSelect` has no guard on the status;
invoked on a state whose status is `playing` (not awaiting wild-suit
selection) it still applies the transition and returns a changed state. -/
theorem C3_missing_guard :
    playingState.status ≠ GameStatus.suit_selection ∧
    handleSuitSelect playingState Suit.HEARTS ≠ playingState ∧
    (handleSuitSelect playingState Suit.HEARTS).wildSuit = some Suit.HEARTS := by
  refine ⟨?_, ?_, ?_⟩ <;> decide

/-- C4: playing an EIGHT from the player's hand moves the game to
`suit_selection`, leaves the turn with the player and leaves the wild suit
untouched. -/
theorem C4_play_eight (s : GameState) (cardId : Nat) (card top : Card)
    (h1 : s.status = GameStatus.playing) (h2 : s.currentTurn = Turn.player)
    (h3 : s.discardPile.getLast? = some top)
    (h4 : s.playerHand.find? (fun c => c.id == cardId) = some card)
    (h5 : card.rank = Rank.EIGHT)
    (h6 : isPlayable card top s.wildSuit = true) :
    (playCard s cardId).status = GameStatus.suit_selection ∧
    (playCard s cardId).currentTurn = Turn.player ∧
    (playCard s cardId).wildSuit = s.wildSuit := by
  unfold playCard
  rw [if_pos ⟨h1, h2⟩, h3]
  dsimp only
  rw [h4]
  dsimp only
  rw [if_pos h6, if_pos h5]
  exact ⟨rfl, h2, rfl⟩

/-- Witness for C4: the player plays the EIGHT of hearts. -/
theorem C4_witness :
    (playCard eightHandState 40).status = GameStatus.suit_selection ∧
    (playCard eightHandState 40).currentTurn = Turn.player ∧
    (playCard eightHandState 40).wildSuit = eightHandState.wildSuit :=
  C4_play_eight eightHandState 40 (mkCard 40 Suit.HEARTS Rank.EIGHT)
    (mkCard 43 Suit.SPADES Rank.KING) rfl rfl (by decide) (by decide) rfl (by decide)

/-- C5 counterexample: from a suit-selection state whose AI hand is already
empty while the player still holds a card, `handleSuitSelect` produces status
`lost`, not `playing` as the claim requires for a non-empty player hand. -/
theorem C5_counterexample :
    aiEmptySelectionState.status = GameStatus.suit_selection ∧
    aiEmptySelectionState.playerHand ≠ [] ∧
    (handleSuitSelect aiEmptySelectionState Suit.HEARTS).status = GameStatus.lost := by
  refine ⟨?_, ?_, ?_⟩ <;> decide

/-- C5 (amended): in the awaiting-wild-suit-selection status, selecting a suit
sets the wild suit, passes the turn to the AI, and sets the status through the
full win check: `won` when the player's hand is empty, otherwise `lost` when
the AI's hand is empty, otherwise `playing`. -/
theorem C5_amended_selectWildSuit (s : GameState) (suit : Suit)
    (_h1 : s.status = GameStatus.suit_selection) :
    (handleSuitSelect s suit).wildSuit = some suit ∧
    (handleSuitSelect s suit).currentTurn = Turn.ai ∧
    (handleSuitSelect s suit).status =
      (if s.playerHand = [] then GameStatus.won
       else if s.aiHand = [] then GameStatus.lost
       else GameStatus.playing) := by
  unfold handleSuitSelect checkWin
  dsimp only
  by_cases hp : s.playerHand = []
  · simp [hp]
  · have hp' : s.playerHand.length ≠ 0 := by simpa [List.length_eq_zero] using hp
    by_cases ha : s.aiHand = []
    · simp [hp, hp', ha]
    · have ha' : s.aiHand.length ≠ 0 := by simpa [List.length_eq_zero] using ha
      simp [hp, hp', ha, ha']

/-- Witness for the amended C5 at a suit-selection state with both hands
non-empty: the game continues in `playing` with the chosen wild suit and the
turn passed to the AI. -/
theorem C5_witness :
    (handleSuitSelect selectionState Suit.DIAMONDS).wildSuit = some Suit.DIAMONDS ∧
    (handleSuitSelect selectionState Suit.DIAMONDS).currentTurn = Turn.ai ∧
    (handleSuitSelect selectionState Suit.DIAMONDS).status =
      (if selectionState.playerHand = [] then GameStatus.won
       else if selectionState.aiHand = [] then GameStatus.lost
       else GameStatus.playing) :=
  C5_amended_selectWildSuit selectionState Suit.DIAMONDS rfl

/-- C6: playing a playable non-EIGHT card clears the wild suit, passes the
turn to the AI, removes the played card from the player's hand and appends its
face-up copy as the new top of the discard pile. -/
theorem C6_play_nonEight (s : GameState) (cardId : Nat) (card top : Card)
    (h1 : s.status = GameStatus.playing) (h2 : s.currentTurn = Turn.player)
    (h3 : s.discardPile.getLast? = some top)
    (h4 : s.playerHand.find? (fun c => c.id == cardId) = some card)
    (h5 : card.rank ≠ Rank.EIGHT)
    (h6 : isPlayable card top s.wildSuit = true)
    (h7 : (s.playerHand.map Card.id).Nodup) :
    (playCard s cardId).wildSuit = none ∧
    (playCard s cardId).currentTurn = Turn.ai ∧
    s.playerHand.Perm (card :: (playCard s cardId).playerHand) ∧
    (playCard s cardId).discardPile = s.discardPile ++ [{ card with isFaceUp := true }] := by
  have hmem : card ∈ s.playerHand := List.mem_of_find?_eq_some h4
  have hid : card.id = cardId := by
    have := List.find?_some h4
    simpa using this
  subst hid
  unfold playCard
  rw [if_pos ⟨h1, h2⟩, h3]
  dsimp only
  rw [h4]
  dsimp only
  rw [if_pos h6, if_neg h5]
  have hperm := perm_cons_filter_of_nodup_ids h7 hmem
  split <;> exact ⟨rfl, rfl, hperm, rfl⟩

/-- Witness for C6: the player plays the seven of hearts on the seven of
spades (the rank-match scenario of the design document). -/
theorem C6_witness :
    (playCard sevenHandState 50).wildSuit = none ∧
    (playCard sevenHandState 50).currentTurn = Turn.ai ∧
    sevenHandState.playerHand.Perm
      (mkCard 50 Suit.HEARTS Rank.SEVEN :: (playCard sevenHandState 50).playerHand) ∧
    (playCard sevenHandState 50).discardPile =
      sevenHandState.discardPile ++
        [{ mkCard 50 Suit.HEARTS Rank.SEVEN with isFaceUp := true }] :=
  C6_play_nonEight sevenHandState 50 (mkCard 50 Suit.HEARTS Rank.SEVEN)
    (mkCard 52 Suit.SPADES Rank.SEVEN) rfl rfl (by decide) (by decide) (by decide)
    (by decide) (by decide)

/-- C7: `checkWin` returns `won` whenever the player's hand is empty (also
when the AI's hand is simultaneously empty — player precedence), `lost` when
only the AI's hand is empty, and `null` otherwise. -/
theorem C7_checkWin (s : GameState) :
    (s.playerHand = [] → checkWin s = some GameStatus.won) ∧
    (s.playerHand ≠ [] → s.aiHand = [] → checkWin s = some GameStatus.lost) ∧
    (s.playerHand ≠ [] → s.aiHand ≠ [] → checkWin s = none) := by
  unfold checkWin
  refine ⟨?_, ?_, ?_⟩
  · intro hp
    simp [hp]
  · intro hp ha
    have hp' : s.playerHand.length ≠ 0 := by simpa [List.length_eq_zero] using hp
    simp [hp', ha]
  · intro hp ha
    have hp' : s.playerHand.length ≠ 0 := by simpa [List.length_eq_zero] using hp
    have ha' : s.aiHand.length ≠ 0 := by simpa [List.length_eq_zero] using ha
    simp [hp', ha']

/-- Witness for C7 at three concrete states: both hands empty (player
precedence gives `won`), only the AI hand empty (`lost`), and both hands
non-empty (`null`). -/
theorem C7_witness :
    checkWin baseState = some GameStatus.won ∧
    checkWin playerClearedState = some GameStatus.won ∧
    checkWin aiEmptySelectionState = some GameStatus.lost ∧
    checkWin playingState = none :=
  ⟨(C7_checkWin baseState).1 rfl,
   (C7_checkWin playerClearedState).1 rfl,
   (C7_checkWin aiEmptySelectionState).2.1 (by decide) rfl,
   (C7_checkWin playingState).2.2 (by decide) (by decide)⟩

/-- C8: drawing with an empty deck changes nothing except the turn, which
passes to the AI: deck, both hands, discard pile, wild suit and status are all
unchanged. -/
theorem C8_draw_empty_deck (s : GameState)
    (h1 : s.status = GameStatus.playing) (h2 : s.currentTurn = Turn.player)
    (h3 : s.deck = []) :
    (handleDraw s).deck = s.deck ∧
    (handleDraw s).playerHand = s.playerHand ∧
    (handleDraw s).aiHand = s.aiHand ∧
    (handleDraw s).discardPile = s.discardPile ∧
    (handleDraw s).wildSuit = s.wildSuit ∧
    (handleDraw s).status = s.status ∧
    (handleDraw s).currentTurn = Turn.ai := by
  unfold handleDraw
  rw [if_pos ⟨h1, h2⟩, if_pos (by simp [h3])]
  exact ⟨rfl, rfl, rfl, rfl, rfl, rfl, rfl⟩

/-- Witness for C8 at a concrete empty-deck position. -/
theorem C8_witness :
    (handleDraw emptyDeckState).deck = emptyDeckState.deck ∧
    (handleDraw emptyDeckState).playerHand = emptyDeckState.playerHand ∧
    (handleDraw emptyDeckState).aiHand = emptyDeckState.aiHand ∧
    (handleDraw emptyDeckState).discardPile = emptyDeckState.discardPile ∧
    (handleDraw emptyDeckState).wildSuit = emptyDeckState.wildSuit ∧
    (handleDraw emptyDeckState).status = emptyDeckState.status ∧
    (handleDraw emptyDeckState).currentTurn = Turn.ai :=
  C8_draw_empty_deck emptyDeckState rfl rfl rfl

/-- C9: a fresh game carries exactly one card per (suit, rank) pair across
deck ∪ playerHand ∪ aiHand ∪ discardPile with no duplicate ids, and every
engine operation (`handleDraw`, `playCard`, `handleSuitSelect`, the AI turn)
preserves this invariant: cards only move between the four collections. -/
theorem C9_card_conservation :
    (∀ (shuffled : List Card) (gs : GameState), shuffled.Perm createDeck →
        initGame shuffled = some gs → Inv gs) ∧
    (∀ s, Inv s → Inv (handleDraw s)) ∧
    (∀ s cardId, Inv s → Inv (playCard s cardId)) ∧
    (∀ s suit, Inv s → Inv (handleSuitSelect s suit)) ∧
    (∀ s, Inv s → Inv (aiTurn s)) :=
  ⟨fun _ _ hp hi => initGame_inv hp hi,
   fun s h => inv_of_keysPerm (keysPerm_handleDraw s) h,
   fun s cid h => inv_of_keysPerm (keysPerm_playCard s cid h.2) h,
   fun s suit h => inv_of_keysPerm (keysPerm_handleSuitSelect s suit) h,
   fun s h => inv_of_keysPerm (keysPerm_aiTurn s h.2) h⟩

/-- Witness for C9 at the game started from the unshuffled deck, running each
operation once. -/
theorem C9_witness :
    Inv gs0 ∧ Inv (handleDraw gs0) ∧ Inv (playCard gs0 7) ∧
    Inv (handleSuitSelect gs0 Suit.HEARTS) ∧ Inv (aiTurn gs0) :=
  have h0 : Inv gs0 := C9_card_conservation.1 createDeck gs0 (List.Perm.refl _) (by rfl)
  ⟨h0, C9_card_conservation.2.1 gs0 h0, C9_card_conservation.2.2.1 gs0 7 h0,
   C9_card_conservation.2.2.2.1 gs0 Suit.HEARTS h0, C9_card_conservation.2.2.2.2 gs0 h0⟩

/-- C10: for every shuffled 52-card deck, `initGame` succeeds (the seed-card
loop terminates) and the top card of the initial discard pile does not have
rank EIGHT. -/
theorem C10_initial_top_not_eight (shuffled : List Card)
    (h : shuffled.Perm createDeck) :
    ∃ gs, initGame shuffled = some gs ∧
      ∃ t, gs.discardPile.getLast? = some t ∧ t.rank ≠ Rank.EIGHT :=
  initGame_spec h

/-- Witness for C10 at the identity shuffle. -/
theorem C10_witness :
    ∃ gs, initGame createDeck = some gs ∧
      ∃ t, gs.discardPile.getLast? = some t ∧ t.rank ≠ Rank.EIGHT :=
  C10_initial_top_not_eight createDeck (List.Perm.refl _)

end CrazyEights
